import Mathlib

/-!
Verification development for the torpc RPC protocol engine
(`torpc/rpc.py`): wire framing with sticky-packet reassembly,
identifier generation, the request/response correlation table with
timeout eviction, and the duplex name registry.

The Python source is shallowly embedded: pure fragments become Lean
functions, the mutable `RPCConnection` object becomes an explicit
state record threaded through each operation, and a statement that
raises becomes an explicit error value in the result.
-/

/-! ## Payload values

The payload codec (msgpack) is an external collaborator; the engine
relies only on deterministic round-tripping.  We model decoded payload
values directly.  `Scalar` covers the atomic values exchanged by the
claims at issue; `Value` additionally has the tuple shape produced by
packing an argument tuple. -/

inductive Scalar where
  | nil
  | boolS (b : Bool)
  | intS (n : Int)
  | strS (s : String)
deriving DecidableEq

inductive Value where
  | scalar (s : Scalar)
  | tup (vs : List Scalar)
deriving DecidableEq

/-- Python truthiness of a decoded value, as used by `if not ret:` in
`RPCClient._register_callback`. -/
def valueTruthy : Value → Bool
  | .scalar .nil => false
  | .scalar (.boolS b) => b
  | .scalar (.intS n) => decide (n ≠ 0)
  | .scalar (.strS t) => decide (t ≠ "")
  | .tup [] => false
  | .tup (_ :: _) => true

/-- Python truthiness of the `err` slot of a RESPONSE envelope
(`None` or a string), as used by `if err:` in `handle_rpc_response`. -/
def errTruthy : Option String → Bool
  | none => false
  | some e => decide (e ≠ "")

/-! ## Wire constants (rpc.py lines 19-23)

`HEAD_LEN = struct.calcsize('!ibi')`: a 4-byte big-endian length, one
type byte, and a 4-byte big-endian identifier. -/

def RPC_REQUEST : Nat := 0
def RPC_RESPONSE : Nat := 1
def RPC_NOTICE : Nat := 2
def RPC_REGISTER : Nat := 3
def HEAD_LEN : Nat := 9

/-! ## Identifier generator (rpc.py `_IDGenerator`)

```
counter = 0
while True:
    yield counter
    counter += 1
    if counter > (1 << 30):
        counter = 0
```
-/

/-- One advance of the `_IDGenerator` counter: the increment followed
by the wraparound test `if counter > (1 << 30): counter = 0`. -/
def idGenNext (counter : Nat) : Nat :=
  if counter + 1 > 1 <<< 30 then 0 else counter + 1

/-- The value produced by the (n+1)-st `next()` call on a fresh
`_IDGenerator` (the generator yields the counter, then advances it). -/
def nthId : Nat → Nat
  | 0 => 0
  | n + 1 => idGenNext (nthId n)

/-! ## Frame reassembly (rpc.py `RPCConnection.on_receive`)

The byte-level receive loop.  Bytes are `Nat`s below 256; the header
fields are read exactly as `struct.unpack('!ibi', buff[:HEAD_LEN])`
does (we keep the raw 32-bit big-endian pattern of the id; its sign
interpretation plays no role here).  The payload codec appears as an
explicit fallible `decode` argument; `packer.loads` raising is
`decode` returning `none`.  A dispatched frame is recorded as the
triple (msg_type, msg_id, decoded payload) handed to the type switch. -/

abbrev Dispatch := Nat × Nat × Value

/-- Big-endian 32-bit read at offset `off`: the raw unsigned bit
pattern of four bytes.  Used directly for the id field: the source's
`struct.unpack('!i')` reads the id signed, but no code under test
inspects the id's sign, so the raw pattern is kept for it. -/
def parseU32 (buff : List Nat) (off : Nat) : Nat :=
  buff.getD off 0 * 16777216 + buff.getD (off + 1) 0 * 65536 +
    buff.getD (off + 2) 0 * 256 + buff.getD (off + 3) 0

/-- The length field exactly as `struct.unpack('!i')` reads it: a
signed 32-bit big-endian integer (two's complement), negative when
the leading byte has its high bit set. -/
def parseI32 (buff : List Nat) (off : Nat) : Int :=
  if parseU32 buff off < 2147483648 then (parseU32 buff off : Int)
  else (parseU32 buff off : Int) - 4294967296

/-- A Python slice bound: a negative index counts from the end of
the list (clamped below at 0 by `Int.toNat`); a non-negative one is
used as is (`take`/`drop` clamp it above at the length). -/
def pyIndex (l : List Nat) (i : Int) : Nat :=
  if i < 0 then ((l.length : Int) + i).toNat else i.toNat

/-- Python's `l[a:b]` for a non-negative start `a` and an arbitrary
(possibly negative) stop `b`; empty whenever the resolved stop is at
or before the start, as in Python. -/
def pySlice (l : List Nat) (a : Nat) (b : Int) : List Nat :=
  (l.take (pyIndex l b)).drop a

/-- Python's `l[s:]` for an arbitrary (possibly negative) start. -/
def pySliceFrom (l : List Nat) (s : Int) : List Nat :=
  l.drop (pyIndex l s)

/-- The `while _cur_len > HEAD_LEN:` loop body of `on_receive`,
written with explicit fuel.  The length field is read signed, as
`struct.unpack('!ibi')` reads it; a negative length always passes
the completeness test `_cur_len - HEAD_LEN >= data_length` and then
drives the slices `self._buff[HEAD_LEN:HEAD_LEN+data_length]` and
`self._buff[HEAD_LEN+data_length:]` with a negative bound, which
`pySlice` / `pySliceFrom` reproduce.  Returns the dispatched frames
in order together with the final `_buff`.  The `none` branch is the
`except` arm around `packer.loads`: the already-reassigned buffer is
kept and the function returns at once, exactly like the source's
`return`.  When every length field read along the run is
non-negative, each iteration consumes at least `HEAD_LEN` bytes, so
fuel equal to the buffer length always suffices; a negative length
can keep the buffer from shrinking (a length of -9 leaves it
unchanged), where the source itself loops forever if the payload
decodes — exhausted fuel stands in for that divergence. -/
def onReceiveLoop (decode : List Nat → Option Value) :
    Nat → List Nat → List Dispatch × List Nat
  | 0, buff => ([], buff)
  | fuel + 1, buff =>
    if HEAD_LEN < buff.length then
      if parseI32 buff 0 ≤ (buff.length : Int) - (HEAD_LEN : Int) then
        match decode (pySlice buff HEAD_LEN ((HEAD_LEN : Int) + parseI32 buff 0)) with
        | none => ([], pySliceFrom buff ((HEAD_LEN : Int) + parseI32 buff 0))
        | some v =>
          ((buff.getD 4 0, parseU32 buff 5, v) ::
              (onReceiveLoop decode fuel
                (pySliceFrom buff ((HEAD_LEN : Int) + parseI32 buff 0))).1,
            (onReceiveLoop decode fuel
              (pySliceFrom buff ((HEAD_LEN : Int) + parseI32 buff 0))).2)
      else ([], buff)
    else ([], buff)

/-- Run the receive loop on a buffer, with enough fuel to drain it. -/
def runBuff (decode : List Nat → Option Value) (b : List Nat) :
    List Dispatch × List Nat :=
  onReceiveLoop decode b.length b

/-- `RPCConnection.on_receive(data)` restricted to its framing effect:
`self._buff += data` followed by the drain loop.  Takes the current
`_buff`, returns the dispatched frames and the new `_buff`. -/
def RPCConnection.on_receive (decode : List Nat → Option Value)
    (buff data : List Nat) : List Dispatch × List Nat :=
  runBuff decode (buff ++ data)

/-- Successive deliveries of `chunks` to `on_receive` starting from
buffer `buff`, collecting every dispatched frame in order. -/
def feedChunks (decode : List Nat → Option Value) :
    List Nat → List (List Nat) → List Dispatch × List Nat
  | buff, [] => ([], buff)
  | buff, c :: cs =>
    ((RPCConnection.on_receive decode buff c).1 ++
        (feedChunks decode (RPCConnection.on_receive decode buff c).2 cs).1,
      (feedChunks decode (RPCConnection.on_receive decode buff c).2 cs).2)

/-- Every length field along the buffer's frame chain — the header
at offset 0, then the one 9 + length bytes further, and so on —
reads non-negative under the signed 32-bit read.  Fuel-indexed like
the loop; each chain step advances at least `HEAD_LEN` bytes, so
fuel equal to the buffer length suffices. -/
def nonnegHeads : Nat → List Nat → Bool
  | 0, _ => true
  | fuel + 1, b =>
    if HEAD_LEN < b.length then
      decide (0 ≤ parseI32 b 0) &&
        nonnegHeads fuel (b.drop (HEAD_LEN + (parseI32 b 0).toNat))
    else true

/-- `nonnegHeads` with its canonical fuel. -/
def headsOk (b : List Nat) : Bool := nonnegHeads b.length b

/-! ## Connection state (rpc.py `RPCConnection`)

The mutable slots of `RPCConnection` relevant to issuing and
resolving calls, as an explicit record.  The correlation table
`_request_table` maps an id to a tornado `Future`; we model the key
set as `request_table : Nat → Bool` and the future objects (which the
caller keeps holding after the table pops them) as a store
`futures : Nat → FutureState` keyed by the id each future was created
for.  `timeouts` records the ids for which `add_request_table`
scheduled a `message_timeout_cb` timer; `written` records the frames
handed to the transport's buffered `write`, at envelope level. -/

/-- Completion state of a tornado `Future` created by `call` /
`register`.  The source only ever calls `set_result`; nothing in
`rpc.py` ever calls `set_exception`. -/
inductive FutureState where
  | unset
  | pending
  | resolved (v : Value)
deriving DecidableEq

/-- The errors `rpc.py` raises. -/
inductive RPCError where
  | serverError (err : String)
  | timeOutError (msgId : Nat)
  | registerError (name : String)
deriving DecidableEq

/-- An outbound frame built by `_pack_request`, at envelope level:
the header's type and id fields plus the decoded form of the payload
`packer.dumps((method_name, arg))`. -/
structure WireFrame where
  ftype : Nat
  fid : Nat
  method : String
  argv : Value
deriving DecidableEq

structure RPCConnection where
  generator : Nat
  request_table : Nat → Bool
  futures : Nat → FutureState
  timeouts : List Nat
  written : List WireFrame
  request_timeout : Nat

/-- A freshly constructed connection with the given
`request_timeout` (0 means no timeout is configured, matching Python
falsiness of `self._request_timeout`). -/
def initConn (t : Nat) : RPCConnection :=
  { generator := 0, request_table := fun _ => false,
    futures := fun _ => .unset, timeouts := [], written := [],
    request_timeout := t }

/-- `add_request_table(msg_id, future)` (rpc.py lines 153-156): if a
request timeout is configured, schedule `message_timeout_cb` for this
id; then store the id in the correlation table. -/
def RPCConnection.add_request_table (msgId : Nat) (s : RPCConnection) :
    RPCConnection :=
  { s with
    timeouts := if s.request_timeout ≠ 0 then s.timeouts ++ [msgId] else s.timeouts,
    request_table := fun i => if i = msgId then true else s.request_table i }

/-- `call(method_name, *arg)` (rpc.py lines 158-168): draw an id from
the generator, pack a REQUEST frame whose payload is
`(method_name, arg)` with `arg` the argument tuple, create a pending
`Future`, enter it in the correlation table, write the frame, and
return the future (identified here by its id) at once. -/
def RPCConnection.call (s : RPCConnection) (method : String)
    (args : List Scalar) : Nat × RPCConnection :=
  let msgId := s.generator
  let s1 := { s with
    generator := idGenNext s.generator,
    futures := fun i => if i = msgId then FutureState.pending else s.futures i }
  let s2 := s1.add_request_table msgId
  (msgId,
    { s2 with written := s2.written ++ [⟨RPC_REQUEST, msgId, method, Value.tup args⟩] })

/-- `notice(method_name, *arg)` (rpc.py lines 170-173): draw an id,
pack and write a NOTICE frame; no future, no table entry, no timer. -/
def RPCConnection.notice (s : RPCConnection) (method : String)
    (args : List Scalar) : RPCConnection :=
  { s with
    generator := idGenNext s.generator,
    written := s.written ++ [⟨RPC_NOTICE, s.generator, method, Value.tup args⟩] }

/-- `register(name)` (rpc.py lines 175-183): like `call`, but the
frame is a REGISTER whose payload is `packer.dumps(('register',
(name)))` — note the source's `(name)` is the bare string, not the
one-element tuple `(name,)`. -/
def RPCConnection.register (s : RPCConnection) (name : String) :
    Nat × RPCConnection :=
  let msgId := s.generator
  let s1 := { s with
    generator := idGenNext s.generator,
    futures := fun i => if i = msgId then FutureState.pending else s.futures i }
  let s2 := s1.add_request_table msgId
  (msgId,
    { s2 with
      written := s2.written ++
        [⟨RPC_REGISTER, msgId, "register", Value.scalar (Scalar.strS name)⟩] })

/-- `message_timeout_cb(msg_id)` (rpc.py lines 185-190): if the id is
no longer in the table, log and return; otherwise pop the entry and
`raise RPCTimeOutError(msg_id)`.  The raise is the returned error
value; note that the popped future is never completed. -/
def RPCConnection.message_timeout_cb (msgId : Nat) (s : RPCConnection) :
    RPCConnection × Option RPCError :=
  if s.request_table msgId = false then (s, none)
  else
    ({ s with request_table := fun i => if i = msgId then false else s.request_table i },
      some (RPCError.timeOutError msgId))

/-- `handle_rpc_response(msg_id, err, ret)` (rpc.py lines 99-107): if
the id is unknown, log and return; if `err` is truthy,
`raise RPCServerError(err)` — before the table entry is popped and
without touching the future; otherwise pop the entry and
`future.set_result(ret)`. -/
def RPCConnection.handle_rpc_response (msgId : Nat) (err : Option String)
    (ret : Value) (s : RPCConnection) : RPCConnection × Option RPCError :=
  if s.request_table msgId = false then (s, none)
  else if errTruthy err then (s, some (RPCError.serverError (err.getD "")))
  else
    ({ s with
        request_table := fun i => if i = msgId then false else s.request_table i,
        futures := fun i => if i = msgId then FutureState.resolved ret else s.futures i },
      none)

/-- `RPCClient._register_callback(future)` (rpc.py lines 252-257):
read the completed future's result; if it is falsy, log a warning and
`raise RPCRegisterError(self.rpc_name)`; otherwise call
`on_registered`.  The raise is the returned error value. -/
def RPCClient._register_callback (rpcName : String) (ret : Value) :
    Except RPCError Unit :=
  if valueTruthy ret = false then Except.error (RPCError.registerError rpcName)
  else Except.ok ()

/-- `DuplexRPCServer._handle_rpc_register(conn, name)` (rpc.py lines
293-299): if the name is already in `rpc_clients`, log a warning and
return `False`; otherwise map the name to the connection and return
`True`.  The registry is the map `String → Option Nat` with
connections identified by number. -/
def DuplexRPCServer._handle_rpc_register (reg : String → Option Nat)
    (conn : Nat) (name : String) : Bool × (String → Option Nat) :=
  match reg name with
  | some _ => (false, reg)
  | none => (true, fun m => if m = name then some conn else reg m)

/-! ## Concrete frames used as inputs

`frameB1` and `frameB2` are complete 10-byte NOTICE frames with
1-byte payloads `[7]` and `[8]`; `frameZ` is a complete 9-byte frame
with a zero-length payload.  `decodeStub` is a codec that fails to
decode exactly the payload `[7]`. -/

def frameB1 : List Nat := [0, 0, 0, 1, 2, 0, 0, 0, 0, 7]

def frameB2 : List Nat := [0, 0, 0, 1, 2, 0, 0, 0, 1, 8]

def frameZ : List Nat := [0, 0, 0, 0, 2, 0, 0, 0, 7]

def decodeStub : List Nat → Option Value := fun bs =>
  if bs = [7] then none else some (Value.scalar (Scalar.intS 0))

/-- A total codec that keeps the payload bytes visible, so different
payloads decode to different values. -/
def decodeInj : List Nat → Option Value := fun bs =>
  some (Value.tup (bs.map fun n => Scalar.intS n))

/-- 30 bytes whose header carries the length field FF FF FF EC,
read signed as -20, followed by the type byte 2, id 1, and 21
trailing bytes. -/
def negFrame : List Nat :=
  [255, 255, 255, 236, 2, 0, 0, 0, 1,
   100, 101, 102, 103, 104, 105, 106, 107, 108, 109, 110,
   111, 112, 113, 114, 115, 116, 117, 118, 119, 120]

/-- The first 25 bytes of `negFrame`. -/
def negChunkA : List Nat :=
  [255, 255, 255, 236, 2, 0, 0, 0, 1,
   100, 101, 102, 103, 104, 105, 106, 107, 108, 109, 110,
   111, 112, 113, 114, 115]

/-- The last 5 bytes of `negFrame`. -/
def negChunkB : List Nat := [116, 117, 118, 119, 120]

/-! ## Properties of the receive loop -/

lemma HEAD_LEN_eq : HEAD_LEN = 9 := rfl

/-- The 32-bit header reads only look at the first buffer. -/
lemma parseU32_append (b dta : List Nat) (off : Nat)
    (h : off + 4 ≤ b.length) :
    parseU32 (b ++ dta) off = parseU32 b off := by
  unfold parseU32
  rw [List.getD_append _ _ _ _ (by omega), List.getD_append _ _ _ _ (by omega),
    List.getD_append _ _ _ _ (by omega), List.getD_append _ _ _ _ (by omega)]

lemma parseI32_append (b dta : List Nat) (off : Nat)
    (h : off + 4 ≤ b.length) :
    parseI32 (b ++ dta) off = parseI32 b off := by
  unfold parseI32
  rw [parseU32_append b dta off h]

/-- A slice bound `HEAD_LEN + L` for a non-negative length `L`
resolves to itself. -/
lemma pyIndex_nonneg (l : List Nat) (L : Nat) :
    pyIndex l ((HEAD_LEN : Int) + (L : Int)) = HEAD_LEN + L := by
  unfold pyIndex
  rw [if_neg (by omega)]
  omega

/-- The request slice for a non-negative length is the payload right
after the header. -/
lemma pySlice_nonneg (l : List Nat) (L : Nat) :
    pySlice l HEAD_LEN ((HEAD_LEN : Int) + (L : Int))
      = (l.drop HEAD_LEN).take L := by
  unfold pySlice
  rw [pyIndex_nonneg, List.drop_take]
  congr 1
  omega

/-- The buffer reassignment for a non-negative length drops the
frame. -/
lemma pySliceFrom_nonneg (l : List Nat) (L : Nat) :
    pySliceFrom l ((HEAD_LEN : Int) + (L : Int)) = l.drop (HEAD_LEN + L) := by
  unfold pySliceFrom
  rw [pyIndex_nonneg]

lemma nonnegHeads_short (f : Nat) (b : List Nat) (h : b.length ≤ HEAD_LEN) :
    nonnegHeads f b = true := by
  cases f with
  | zero => rfl
  | succ f =>
    simp only [nonnegHeads]
    rw [if_neg (Nat.not_lt.2 h)]

lemma nonnegHeads_unfold (f : Nat) (b : List Nat) (h9 : HEAD_LEN < b.length) :
    nonnegHeads (f + 1) b
      = (decide (0 ≤ parseI32 b 0) &&
          nonnegHeads f (b.drop (HEAD_LEN + (parseI32 b 0).toNat))) := by
  simp only [nonnegHeads]
  rw [if_pos h9]

/-- Any fuel at least the buffer length decides `nonnegHeads` the
same way (each chain step advances at least `HEAD_LEN` bytes). -/
lemma nonnegHeads_fuel :
    ∀ n f g b, List.length b ≤ n → List.length b ≤ f → List.length b ≤ g →
      nonnegHeads f b = nonnegHeads g b := by
  intro n
  induction n with
  | zero =>
    intro f g b hb _ _
    have h : b.length ≤ HEAD_LEN := by rw [HEAD_LEN_eq]; omega
    rw [nonnegHeads_short f b h, nonnegHeads_short g b h]
  | succ n ih =>
    intro f g b hb hf hg
    by_cases h9 : HEAD_LEN < b.length
    · have h9' : 9 < b.length := by rw [HEAD_LEN_eq] at h9; exact h9
      obtain ⟨f', rfl⟩ : ∃ k, f = k + 1 := ⟨f - 1, by omega⟩
      obtain ⟨g', rfl⟩ : ∃ k, g = k + 1 := ⟨g - 1, by omega⟩
      rw [nonnegHeads_unfold f' b h9, nonnegHeads_unfold g' b h9]
      have hr : ∀ m, List.length b ≤ m + 1 →
          (b.drop (HEAD_LEN + (parseI32 b 0).toNat)).length ≤ m := by
        intro m hm
        rw [List.length_drop, HEAD_LEN_eq]
        omega
      rw [ih f' g' (b.drop (HEAD_LEN + (parseI32 b 0).toNat))
        (hr n hb) (hr f' hf) (hr g' hg)]
    · have h : b.length ≤ HEAD_LEN := Nat.not_lt.1 h9
      rw [nonnegHeads_short _ b h, nonnegHeads_short _ b h]

lemma headsOk_short (b : List Nat) (h : b.length ≤ HEAD_LEN) :
    headsOk b = true :=
  nonnegHeads_short b.length b h

/-- Unfolding `headsOk` across one frame of the chain. -/
lemma headsOk_cons (b : List Nat) (h9 : HEAD_LEN < b.length)
    (hOk : headsOk b = true) :
    0 ≤ parseI32 b 0 ∧
      headsOk (b.drop (HEAD_LEN + (parseI32 b 0).toNat)) = true := by
  have h9' : 9 < b.length := by rw [HEAD_LEN_eq] at h9; exact h9
  obtain ⟨k, hk⟩ : ∃ k, b.length = k + 1 := ⟨b.length - 1, by omega⟩
  unfold headsOk at hOk
  rw [hk, nonnegHeads_unfold k b h9, Bool.and_eq_true, decide_eq_true_eq] at hOk
  refine ⟨hOk.1, ?_⟩
  have hr : (b.drop (HEAD_LEN + (parseI32 b 0).toNat)).length ≤ k := by
    rw [List.length_drop, HEAD_LEN_eq]
    omega
  unfold headsOk
  rw [nonnegHeads_fuel k (b.drop (HEAD_LEN + (parseI32 b 0).toNat)).length k
    (b.drop (HEAD_LEN + (parseI32 b 0).toNat)) hr le_rfl hr]
  exact hOk.2

/-- Under `HEAD_LEN` bytes buffered: the loop does not run. -/
lemma onReceiveLoop_short (d : List Nat → Option Value) (f : Nat)
    (b : List Nat) (h : b.length ≤ HEAD_LEN) :
    onReceiveLoop d f b = ([], b) := by
  cases f with
  | zero => rfl
  | succ f =>
    simp only [onReceiveLoop]
    rw [if_neg (Nat.not_lt.2 h)]

/-- A buffered but incomplete frame: the loop stops. -/
lemma onReceiveLoop_incomplete (d : List Nat → Option Value) (f : Nat)
    (b : List Nat) (h9 : HEAD_LEN < b.length)
    (hinc : (b.length : Int) - (HEAD_LEN : Int) < parseI32 b 0) :
    onReceiveLoop d f b = ([], b) := by
  cases f with
  | zero => rfl
  | succ f =>
    simp only [onReceiveLoop]
    rw [if_pos h9, if_neg (not_le.2 hinc)]

/-- One loop iteration on a complete frame with a non-negative
length field whose payload decodes. -/
lemma onReceiveLoop_step (d : List Nat → Option Value) (f : Nat)
    (b : List Nat) (v : Value) (L : Nat) (hL : parseI32 b 0 = (L : Int))
    (h9 : HEAD_LEN < b.length) (hc : L ≤ b.length - HEAD_LEN)
    (hD : d ((b.drop HEAD_LEN).take L) = some v) :
    onReceiveLoop d (f + 1) b
      = ((b.getD 4 0, parseU32 b 5, v) ::
            (onReceiveLoop d f (b.drop (HEAD_LEN + L))).1,
          (onReceiveLoop d f (b.drop (HEAD_LEN + L))).2) := by
  have h9' : 9 < b.length := by rw [HEAD_LEN_eq] at h9; exact h9
  have hc' : L ≤ b.length - 9 := by rw [HEAD_LEN_eq] at hc; exact hc
  have hcI : parseI32 b 0 ≤ (b.length : Int) - (HEAD_LEN : Int) := by
    rw [hL, HEAD_LEN_eq]
    omega
  simp only [onReceiveLoop]
  rw [if_pos h9, if_pos hcI, hL, pySlice_nonneg, pySliceFrom_nonneg, hD]

/-- One loop iteration on a complete frame with a non-negative
length field whose payload fails to decode: the source's bare
`return`, keeping the shortened buffer. -/
lemma onReceiveLoop_step_none (d : List Nat → Option Value) (f : Nat)
    (b : List Nat) (L : Nat) (hL : parseI32 b 0 = (L : Int))
    (h9 : HEAD_LEN < b.length) (hc : L ≤ b.length - HEAD_LEN)
    (hD : d ((b.drop HEAD_LEN).take L) = none) :
    onReceiveLoop d (f + 1) b = ([], b.drop (HEAD_LEN + L)) := by
  have h9' : 9 < b.length := by rw [HEAD_LEN_eq] at h9; exact h9
  have hc' : L ≤ b.length - 9 := by rw [HEAD_LEN_eq] at hc; exact hc
  have hcI : parseI32 b 0 ≤ (b.length : Int) - (HEAD_LEN : Int) := by
    rw [hL, HEAD_LEN_eq]
    omega
  simp only [onReceiveLoop]
  rw [if_pos h9, if_pos hcI, hL, pySlice_nonneg, pySliceFrom_nonneg, hD]

/-- Along a chain of non-negative length fields, any fuel at least
the buffer length gives the same outcome. -/
lemma onReceiveLoop_fuel (d : List Nat → Option Value) :
    ∀ n f g b, List.length b ≤ n → List.length b ≤ f → List.length b ≤ g →
      headsOk b = true → onReceiveLoop d f b = onReceiveLoop d g b := by
  intro n
  induction n with
  | zero =>
    intro f g b hb _ _ _
    have h : b.length ≤ HEAD_LEN := by rw [HEAD_LEN_eq]; omega
    rw [onReceiveLoop_short d f b h, onReceiveLoop_short d g b h]
  | succ n ih =>
    intro f g b hb hf hg hOk
    by_cases h9 : HEAD_LEN < b.length
    · have h9' : 9 < b.length := by rw [HEAD_LEN_eq] at h9; exact h9
      obtain ⟨hpos, hOkRest⟩ := headsOk_cons b h9 hOk
      have hL : parseI32 b 0 = (((parseI32 b 0).toNat : Nat) : Int) :=
        (Int.toNat_of_nonneg hpos).symm
      by_cases hc : parseI32 b 0 ≤ (b.length : Int) - (HEAD_LEN : Int)
      · have hcN : (parseI32 b 0).toNat ≤ b.length - HEAD_LEN := by
          rw [HEAD_LEN_eq]
          rw [HEAD_LEN_eq] at hc
          omega
        obtain ⟨f', rfl⟩ : ∃ k, f = k + 1 := ⟨f - 1, by omega⟩
        obtain ⟨g', rfl⟩ : ∃ k, g = k + 1 := ⟨g - 1, by omega⟩
        cases hD : d ((b.drop HEAD_LEN).take (parseI32 b 0).toNat) with
        | none =>
          rw [onReceiveLoop_step_none d f' b (parseI32 b 0).toNat hL h9 hcN hD,
            onReceiveLoop_step_none d g' b (parseI32 b 0).toNat hL h9 hcN hD]
        | some v =>
          have hr : ∀ m, List.length b ≤ m + 1 →
              (b.drop (HEAD_LEN + (parseI32 b 0).toNat)).length ≤ m := by
            intro m hm
            rw [List.length_drop, HEAD_LEN_eq]
            omega
          rw [onReceiveLoop_step d f' b v (parseI32 b 0).toNat hL h9 hcN hD,
            onReceiveLoop_step d g' b v (parseI32 b 0).toNat hL h9 hcN hD,
            ih f' g' (b.drop (HEAD_LEN + (parseI32 b 0).toNat))
              (hr n hb) (hr f' hf) (hr g' hg) hOkRest]
      · rw [onReceiveLoop_incomplete d f b h9 (not_le.1 hc),
          onReceiveLoop_incomplete d g b h9 (not_le.1 hc)]
    · have h : b.length ≤ HEAD_LEN := Nat.not_lt.1 h9
      rw [onReceiveLoop_short d f b h, onReceiveLoop_short d g b h]

/-- A buffer holding no dispatchable frame is left alone by the
drain. -/
lemma runBuff_noframe (d : List Nat → Option Value) (b : List Nat)
    (h : b.length ≤ HEAD_LEN ∨
      (HEAD_LEN < b.length ∧
        (b.length : Int) - (HEAD_LEN : Int) < parseI32 b 0)) :
    runBuff d b = ([], b) := by
  rcases h with h | ⟨h9, hinc⟩
  · exact onReceiveLoop_short d b.length b h
  · exact onReceiveLoop_incomplete d b.length b h9 hinc

/-- `runBuff` on a buffer whose first frame is complete, has a
non-negative length field, and decodes: dispatch it and drain the
rest. -/
lemma runBuff_step (d : List Nat → Option Value) (b : List Nat) (v : Value)
    (L : Nat) (hL : parseI32 b 0 = (L : Int)) (h9 : HEAD_LEN < b.length)
    (hc : L ≤ b.length - HEAD_LEN) (hOk : headsOk b = true)
    (hD : d ((b.drop HEAD_LEN).take L) = some v) :
    runBuff d b
      = ((b.getD 4 0, parseU32 b 5, v) ::
            (runBuff d (b.drop (HEAD_LEN + L))).1,
          (runBuff d (b.drop (HEAD_LEN + L))).2) := by
  have h9' : 9 < b.length := by rw [HEAD_LEN_eq] at h9; exact h9
  obtain ⟨k, hk⟩ : ∃ k, b.length = k + 1 := ⟨b.length - 1, by omega⟩
  have hr : (b.drop (HEAD_LEN + L)).length ≤ k := by
    rw [List.length_drop, HEAD_LEN_eq]
    omega
  have ht : (parseI32 b 0).toNat = L := by
    rw [hL]
    exact Int.toNat_natCast L
  have hOkRest : headsOk (b.drop (HEAD_LEN + L)) = true := by
    have hx := (headsOk_cons b h9 hOk).2
    rw [ht] at hx
    exact hx
  show onReceiveLoop d b.length b = _
  rw [hk, onReceiveLoop_step d k b v L hL h9 hc hD,
    onReceiveLoop_fuel d k k (b.drop (HEAD_LEN + L)).length
      (b.drop (HEAD_LEN + L)) hr hr le_rfl hOkRest]
  rfl

/-- As `runBuff_step`, for a payload that fails to decode. -/
lemma runBuff_step_none (d : List Nat → Option Value) (b : List Nat)
    (L : Nat) (hL : parseI32 b 0 = (L : Int)) (h9 : HEAD_LEN < b.length)
    (hc : L ≤ b.length - HEAD_LEN)
    (hD : d ((b.drop HEAD_LEN).take L) = none) :
    runBuff d b = ([], b.drop (HEAD_LEN + L)) := by
  have h9' : 9 < b.length := by rw [HEAD_LEN_eq] at h9; exact h9
  obtain ⟨k, hk⟩ : ∃ k, b.length = k + 1 := ⟨b.length - 1, by omega⟩
  show onReceiveLoop d b.length b = _
  rw [hk, onReceiveLoop_step_none d k b L hL h9 hc hD]

/-- Every header the chain of `x` actually reads lies fully inside
`x` (a chain position with more than `HEAD_LEN` bytes left in `x`
has its whole header in `x`), so the chain condition for `x ++ dta`
gives it for `x` alone. -/
lemma headsOk_prefix :
    ∀ n x dta, List.length x ≤ n → headsOk (x ++ dta) = true →
      headsOk x = true := by
  intro n
  induction n with
  | zero =>
    intro x dta hx _
    exact headsOk_short x (by rw [HEAD_LEN_eq]; omega)
  | succ n ih =>
    intro x dta hx hOk
    by_cases h9 : HEAD_LEN < x.length
    · have h9' : 9 < x.length := by rw [HEAD_LEN_eq] at h9; exact h9
      have h9a : HEAD_LEN < (x ++ dta).length := by
        rw [List.length_append, HEAD_LEN_eq]
        omega
      obtain ⟨hpos, hrest⟩ := headsOk_cons (x ++ dta) h9a hOk
      have hp : parseI32 (x ++ dta) 0 = parseI32 x 0 :=
        parseI32_append x dta 0 (by omega)
      rw [hp] at hpos hrest
      obtain ⟨k, hk⟩ : ∃ k, x.length = k + 1 := ⟨x.length - 1, by omega⟩
      unfold headsOk
      rw [hk, nonnegHeads_unfold k x h9, Bool.and_eq_true, decide_eq_true_eq]
      refine ⟨hpos, ?_⟩
      by_cases hin : 9 + (parseI32 x 0).toNat ≤ x.length
      · have hsplit : (x ++ dta).drop (HEAD_LEN + (parseI32 x 0).toNat)
            = x.drop (HEAD_LEN + (parseI32 x 0).toNat) ++ dta :=
          List.drop_append_of_le_length (by rw [HEAD_LEN_eq]; exact hin)
        rw [hsplit] at hrest
        have hlen : (x.drop (HEAD_LEN + (parseI32 x 0).toNat)).length ≤ n := by
          rw [List.length_drop, HEAD_LEN_eq]
          omega
        have hlenk : (x.drop (HEAD_LEN + (parseI32 x 0).toNat)).length ≤ k := by
          rw [List.length_drop, HEAD_LEN_eq]
          omega
        have hx2 := ih (x.drop (HEAD_LEN + (parseI32 x 0).toNat)) dta hlen hrest
        unfold headsOk at hx2
        rw [nonnegHeads_fuel k k (x.drop (HEAD_LEN + (parseI32 x 0).toNat)).length
          (x.drop (HEAD_LEN + (parseI32 x 0).toNat)) hlenk hlenk le_rfl]
        exact hx2
      · exact nonnegHeads_short k _ (by rw [List.length_drop, HEAD_LEN_eq]; omega)
    · exact headsOk_short x (Nat.not_lt.1 h9)

/-- The buffer a drain leaves is a chain suffix, so the chain
condition survives draining (with any trailing continuation). -/
lemma headsOk_leftover (d : List Nat → Option Value) :
    ∀ n x dta, List.length x ≤ n → headsOk (x ++ dta) = true →
      headsOk ((runBuff d x).2 ++ dta) = true := by
  intro n
  induction n with
  | zero =>
    intro x dta hx hOk
    rw [runBuff_noframe d x (Or.inl (by rw [HEAD_LEN_eq]; omega))]
    exact hOk
  | succ n ih =>
    intro x dta hx hOk
    by_cases h9 : HEAD_LEN < x.length
    · have h9' : 9 < x.length := by rw [HEAD_LEN_eq] at h9; exact h9
      have h9a : HEAD_LEN < (x ++ dta).length := by
        rw [List.length_append, HEAD_LEN_eq]
        omega
      obtain ⟨hpos, hrest⟩ := headsOk_cons (x ++ dta) h9a hOk
      have hp : parseI32 (x ++ dta) 0 = parseI32 x 0 :=
        parseI32_append x dta 0 (by omega)
      rw [hp] at hpos hrest
      have hL : parseI32 x 0 = (((parseI32 x 0).toNat : Nat) : Int) :=
        (Int.toNat_of_nonneg hpos).symm
      by_cases hc : parseI32 x 0 ≤ (x.length : Int) - (HEAD_LEN : Int)
      · have hcN : (parseI32 x 0).toNat ≤ x.length - HEAD_LEN := by
          rw [HEAD_LEN_eq]
          rw [HEAD_LEN_eq] at hc
          omega
        have hin : 9 + (parseI32 x 0).toNat ≤ x.length := by
          rw [HEAD_LEN_eq] at hcN
          omega
        have hsplit : (x ++ dta).drop (HEAD_LEN + (parseI32 x 0).toNat)
            = x.drop (HEAD_LEN + (parseI32 x 0).toNat) ++ dta :=
          List.drop_append_of_le_length (by rw [HEAD_LEN_eq]; exact hin)
        rw [hsplit] at hrest
        cases hD : d ((x.drop HEAD_LEN).take (parseI32 x 0).toNat) with
        | none =>
          rw [runBuff_step_none d x (parseI32 x 0).toNat hL h9 hcN hD]
          exact hrest
        | some v =>
          have hxOk : headsOk x = true := headsOk_prefix x.length x dta le_rfl hOk
          rw [runBuff_step d x v (parseI32 x 0).toNat hL h9 hcN hxOk hD]
          have hlen : (x.drop (HEAD_LEN + (parseI32 x 0).toNat)).length ≤ n := by
            rw [List.length_drop, HEAD_LEN_eq]
            omega
          exact ih (x.drop (HEAD_LEN + (parseI32 x 0).toNat)) dta hlen hrest
      · rw [runBuff_noframe d x (Or.inr ⟨h9, not_le.1 hc⟩)]
        exact hOk
    · rw [runBuff_noframe d x (Or.inl (Nat.not_lt.1 h9))]
      exact hOk

/-- When the codec always decodes and the chain condition holds, the
buffer left by a drain holds no complete frame: draining it again
dispatches nothing. -/
lemma runBuff_stuck (d : List Nat → Option Value)
    (htot : ∀ bs, (d bs).isSome) :
    ∀ n x dta, List.length x ≤ n → headsOk (x ++ dta) = true →
      runBuff d (runBuff d x).2 = ([], (runBuff d x).2) := by
  intro n
  induction n with
  | zero =>
    intro x dta hx _
    have h : x.length ≤ HEAD_LEN := by rw [HEAD_LEN_eq]; omega
    rw [runBuff_noframe d x (Or.inl h)]
    exact runBuff_noframe d x (Or.inl h)
  | succ n ih =>
    intro x dta hx hOk
    by_cases h9 : HEAD_LEN < x.length
    · have h9' : 9 < x.length := by rw [HEAD_LEN_eq] at h9; exact h9
      have h9a : HEAD_LEN < (x ++ dta).length := by
        rw [List.length_append, HEAD_LEN_eq]
        omega
      obtain ⟨hpos, hrest⟩ := headsOk_cons (x ++ dta) h9a hOk
      have hp : parseI32 (x ++ dta) 0 = parseI32 x 0 :=
        parseI32_append x dta 0 (by omega)
      rw [hp] at hpos hrest
      have hL : parseI32 x 0 = (((parseI32 x 0).toNat : Nat) : Int) :=
        (Int.toNat_of_nonneg hpos).symm
      by_cases hc : parseI32 x 0 ≤ (x.length : Int) - (HEAD_LEN : Int)
      · have hcN : (parseI32 x 0).toNat ≤ x.length - HEAD_LEN := by
          rw [HEAD_LEN_eq]
          rw [HEAD_LEN_eq] at hc
          omega
        have hin : 9 + (parseI32 x 0).toNat ≤ x.length := by
          rw [HEAD_LEN_eq] at hcN
          omega
        have hsplit : (x ++ dta).drop (HEAD_LEN + (parseI32 x 0).toNat)
            = x.drop (HEAD_LEN + (parseI32 x 0).toNat) ++ dta :=
          List.drop_append_of_le_length (by rw [HEAD_LEN_eq]; exact hin)
        rw [hsplit] at hrest
        obtain ⟨v, hv⟩ := Option.isSome_iff_exists.1
          (htot ((x.drop HEAD_LEN).take (parseI32 x 0).toNat))
        have hxOk : headsOk x = true := headsOk_prefix x.length x dta le_rfl hOk
        rw [runBuff_step d x v (parseI32 x 0).toNat hL h9 hcN hxOk hv]
        have hlen : (x.drop (HEAD_LEN + (parseI32 x 0).toNat)).length ≤ n := by
          rw [List.length_drop, HEAD_LEN_eq]
          omega
        exact ih (x.drop (HEAD_LEN + (parseI32 x 0).toNat)) dta hlen hrest
      · have h : x.length ≤ HEAD_LEN ∨
            (HEAD_LEN < x.length ∧
              (x.length : Int) - (HEAD_LEN : Int) < parseI32 x 0) :=
          Or.inr ⟨h9, not_le.1 hc⟩
        rw [runBuff_noframe d x h]
        exact runBuff_noframe d x h
    · have h : x.length ≤ HEAD_LEN := Nat.not_lt.1 h9
      rw [runBuff_noframe d x (Or.inl h)]
      exact runBuff_noframe d x (Or.inl h)

/-- Draining `b ++ dta` dispatches first what draining `b` does,
then what draining the leftover of `b` extended by `dta` does —
provided the codec always decodes (a decode failure would abandon
the rest of `b`) and every length field along the chain reads
non-negative (a negative one would slice from the end, making the
outcome depend on how much of `dta` has arrived). -/
lemma runBuff_append (d : List Nat → Option Value)
    (htot : ∀ bs, (d bs).isSome) :
    ∀ n b dta, List.length b ≤ n → headsOk (b ++ dta) = true →
      runBuff d (b ++ dta)
        = ((runBuff d b).1 ++ (runBuff d ((runBuff d b).2 ++ dta)).1,
            (runBuff d ((runBuff d b).2 ++ dta)).2) := by
  intro n
  induction n with
  | zero =>
    intro b dta hb _
    have hbnil : b = [] := List.length_eq_zero.1 (Nat.le_zero.1 hb)
    subst hbnil
    rfl
  | succ n ih =>
    intro b dta hb hOk
    by_cases h9 : HEAD_LEN < b.length
    · have h9' : 9 < b.length := by rw [HEAD_LEN_eq] at h9; exact h9
      have h9a : HEAD_LEN < (b ++ dta).length := by
        rw [List.length_append, HEAD_LEN_eq]
        omega
      obtain ⟨hpos, hrest⟩ := headsOk_cons (b ++ dta) h9a hOk
      have hp : parseI32 (b ++ dta) 0 = parseI32 b 0 :=
        parseI32_append b dta 0 (by omega)
      rw [hp] at hpos hrest
      have hL : parseI32 b 0 = (((parseI32 b 0).toNat : Nat) : Int) :=
        (Int.toNat_of_nonneg hpos).symm
      by_cases hc : parseI32 b 0 ≤ (b.length : Int) - (HEAD_LEN : Int)
      · have hcN : (parseI32 b 0).toNat ≤ b.length - HEAD_LEN := by
          rw [HEAD_LEN_eq]
          rw [HEAD_LEN_eq] at hc
          omega
        have hcN9 : (parseI32 b 0).toNat ≤ b.length - 9 := by
          rw [HEAD_LEN_eq] at hcN
          exact hcN
        have hin : 9 + (parseI32 b 0).toNat ≤ b.length := by
          omega
        obtain ⟨v, hv⟩ := Option.isSome_iff_exists.1
          (htot ((b.drop HEAD_LEN).take (parseI32 b 0).toNat))
        have hbOk : headsOk b = true := headsOk_prefix b.length b dta le_rfl hOk
        have hL' : parseI32 (b ++ dta) 0 = (((parseI32 b 0).toNat : Nat) : Int) := by
          rw [hp]
          exact hL
        have hc' : (parseI32 b 0).toNat ≤ (b ++ dta).length - HEAD_LEN := by
          rw [List.length_append, HEAD_LEN_eq]
          omega
        have hv' : d (((b ++ dta).drop HEAD_LEN).take (parseI32 b 0).toNat)
            = some v := by
          have hd : (b ++ dta).drop HEAD_LEN = b.drop HEAD_LEN ++ dta :=
            List.drop_append_of_le_length (by rw [HEAD_LEN_eq]; omega)
          have ht : (b.drop HEAD_LEN ++ dta).take (parseI32 b 0).toNat
              = (b.drop HEAD_LEN).take (parseI32 b 0).toNat :=
            List.take_append_of_le_length
              (by rw [List.length_drop, HEAD_LEN_eq]; omega)
          rw [hd, ht, hv]
        have hrs : (b ++ dta).drop (HEAD_LEN + (parseI32 b 0).toNat)
            = b.drop (HEAD_LEN + (parseI32 b 0).toNat) ++ dta :=
          List.drop_append_of_le_length (by rw [HEAD_LEN_eq]; exact hin)
        rw [hrs] at hrest
        have hp5 : parseU32 (b ++ dta) 5 = parseU32 b 5 :=
          parseU32_append b dta 5 (by omega)
        have hg4 : (b ++ dta).getD 4 0 = b.getD 4 0 :=
          List.getD_append _ _ _ _ (by omega)
        have hlen : (b.drop (HEAD_LEN + (parseI32 b 0).toNat)).length ≤ n := by
          rw [List.length_drop, HEAD_LEN_eq]
          omega
        rw [runBuff_step d (b ++ dta) v (parseI32 b 0).toNat hL' h9a hc' hOk hv',
          hp5, hg4, hrs,
          ih (b.drop (HEAD_LEN + (parseI32 b 0).toNat)) dta hlen hrest,
          runBuff_step d b v (parseI32 b 0).toNat hL h9 hcN hbOk hv]
        rfl
      · rw [runBuff_noframe d b (Or.inr ⟨h9, not_le.1 hc⟩)]
        rfl
    · rw [runBuff_noframe d b (Or.inl (Nat.not_lt.1 h9))]
      rfl

/-- Feeding chunks one at a time, starting from a drained buffer, is
the same as draining the concatenation — when the codec always
decodes and every length field along the stream reads non-negative. -/
lemma feedChunks_eq_run (d : List Nat → Option Value)
    (htot : ∀ bs, (d bs).isSome) :
    ∀ cs b, runBuff d b = ([], b) → headsOk (b ++ cs.flatten) = true →
      feedChunks d b cs = runBuff d (b ++ cs.flatten) := by
  intro cs
  induction cs with
  | nil =>
    intro b hstuck _
    rw [List.flatten_nil, List.append_nil]
    exact hstuck.symm
  | cons c cs ih =>
    intro b hstuck hOk
    rw [List.flatten_cons, ← List.append_assoc] at hOk
    have hb2 : runBuff d (runBuff d (b ++ c)).2 = ([], (runBuff d (b ++ c)).2) :=
      runBuff_stuck d htot (b ++ c).length (b ++ c) cs.flatten le_rfl hOk
    have hleft : headsOk ((runBuff d (b ++ c)).2 ++ cs.flatten) = true :=
      headsOk_leftover d (b ++ c).length (b ++ c) cs.flatten le_rfl hOk
    show ((runBuff d (b ++ c)).1 ++ (feedChunks d (runBuff d (b ++ c)).2 cs).1,
        (feedChunks d (runBuff d (b ++ c)).2 cs).2) = _
    rw [ih (runBuff d (b ++ c)).2 hb2 hleft, List.flatten_cons,
      ← List.append_assoc,
      runBuff_append d htot (b ++ c).length (b ++ c) cs.flatten le_rfl hOk]

/-! ## The identifier generator's closed form -/

lemma one_shl_30 : (1 <<< 30 : Nat) = 1073741824 := by decide

/-- The generator counts `0, 1, ..., 2^30, 0, 1, ...`: the value of
the (n+1)-st call is `n` modulo `2^30 + 1`. -/
lemma nthId_closed (n : Nat) : nthId n = n % 1073741825 := by
  induction n with
  | zero => rfl
  | succ n ih =>
    have hlt : n % 1073741825 < 1073741825 := Nat.mod_lt _ (by decide)
    show idGenNext (nthId n) = (n + 1) % 1073741825
    rw [ih, idGenNext, one_shl_30]
    have hmod : (n + 1) % 1073741825 = (n % 1073741825 + 1) % 1073741825 := by
      conv_lhs => rw [Nat.add_mod]
    by_cases h : n % 1073741825 + 1 > 1073741824
    · have he : n % 1073741825 + 1 = 1073741825 := by omega
      rw [if_pos h, hmod, he, Nat.mod_self]
    · rw [if_neg h, hmod]
      exact (Nat.mod_eq_of_lt (by omega)).symm

/-- Claim C6, counterexample.  The generator yields the bound value
2^30 itself (at the 2^30+1-st call), so exactly four calls of the
stated 2^30+5 remain after the bound is reached, and they yield
0, 1, 2, 3 — the last of the 2^30+5 calls yields 3, not 4, so the
claimed post-wraparound run 0, 1, 2, 3, 4 does not fit. -/
theorem idgen_wrap_counterexample :
    nthId (1 <<< 30) = 1 <<< 30 ∧
    nthId (1 <<< 30 + 1) = 0 ∧ nthId (1 <<< 30 + 2) = 1 ∧
    nthId (1 <<< 30 + 3) = 2 ∧ nthId (1 <<< 30 + 4) = 3 ∧
    nthId (1 <<< 30 + 4) ≠ 4 := by
  simp only [nthId_closed]
  decide

/-- Claim C6, amended.  The identifier generator is strictly
increasing from 0 up to and including the bound 2^30, then resets to
0 and continues (its n-th value is n mod 2^30+1); calling next()
exactly 2^30+5 times yields a sequence that, after reaching the
bound, wraps to 0, 1, 2, 3 (the value 4 would need a 2^30+6-th
call). -/
theorem idgen_wrap_amended :
    (∀ n, nthId n = n % (1 <<< 30 + 1)) ∧
    (∀ i j : Nat, j ≤ 1 <<< 30 → i < j → nthId i < nthId j) ∧
    nthId (1 <<< 30) = 1 <<< 30 ∧
    nthId (1 <<< 30 + 1) = 0 ∧ nthId (1 <<< 30 + 4) = 3 := by
  refine ⟨?_, ?_, ?_, ?_, ?_⟩
  · intro n
    rw [nthId_closed, one_shl_30]
  · intro i j hj hij
    rw [one_shl_30] at hj
    rw [nthId_closed, nthId_closed, Nat.mod_eq_of_lt (by omega),
      Nat.mod_eq_of_lt (by omega)]
    exact hij
  · rw [nthId_closed]; decide
  · rw [nthId_closed]; decide
  · rw [nthId_closed]; decide

/-- Witness for the amended C6 theorem at a concrete input. -/
theorem idgen_wrap_amended_witness :
    (1 : Nat) ≤ 1 <<< 30 ∧ (0 : Nat) < 1 ∧ nthId 0 < nthId 1 :=
  ⟨by decide, by decide, idgen_wrap_amended.2.1 0 1 (by decide) (by decide)⟩

/-- Claim C1, evaluated at the failing input.  On a connection with
request timeout 5, a call issues id 0, enters it in the correlation
table and schedules the timeout; when the timer fires with no
RESPONSE dispatched, caller-side message_timeout_cb pops the entry and
raises RPCTimeOutError — but the pending future returned by call is
never completed: it is still pending afterwards, contradicting the
claim that the caller observably receives a timeout failure. -/
theorem timeout_leaves_future_pending :
    (RPCConnection.call (initConn 5) "echo" []).1 = 0 ∧
    (RPCConnection.call (initConn 5) "echo" []).2.timeouts = [0] ∧
    (RPCConnection.call (initConn 5) "echo" []).2.futures 0 = FutureState.pending ∧
    (RPCConnection.message_timeout_cb 0
        (RPCConnection.call (initConn 5) "echo" []).2).2
      = some (RPCError.timeOutError 0) ∧
    (RPCConnection.message_timeout_cb 0
        (RPCConnection.call (initConn 5) "echo" []).2).1.request_table 0 = false ∧
    (RPCConnection.message_timeout_cb 0
        (RPCConnection.call (initConn 5) "echo" []).2).1.futures 0
      = FutureState.pending := by
  refine ⟨rfl, ?_, rfl, rfl, ?_, rfl⟩ <;> decide

/-- Claim C2, evaluated at the failing input.  A RESPONSE for the
in-table id 0 whose envelope carries the error text boom makes
handle_rpc_response raise RPCServerError synchronously inside the
dispatch path, with the state returned unchanged: the correlation
entry is not removed and the pending placeholder is not completed as
a failure, contradicting the claim. -/
theorem response_error_raises_in_dispatch :
    RPCConnection.handle_rpc_response 0 (some "boom") (Value.scalar Scalar.nil)
        (RPCConnection.call (initConn 5) "echo" []).2
      = ((RPCConnection.call (initConn 5) "echo" []).2,
          some (RPCError.serverError "boom")) ∧
    (RPCConnection.call (initConn 5) "echo" []).2.request_table 0 = true ∧
    (RPCConnection.call (initConn 5) "echo" []).2.futures 0 = FutureState.pending :=
  ⟨rfl, rfl, rfl⟩

/-- Claim C7: a duplex-registry register call for a name already
present returns false and leaves the registry unchanged; for an
absent name it returns true and stores exactly the new mapping. -/
theorem duplex_register_unique (reg : String → Option Nat) (conn : Nat)
    (name : String) :
    ((∃ c, reg name = some c) →
      DuplexRPCServer._handle_rpc_register reg conn name = (false, reg)) ∧
    (reg name = none →
      (DuplexRPCServer._handle_rpc_register reg conn name).1 = true ∧
      (DuplexRPCServer._handle_rpc_register reg conn name).2 name = some conn ∧
      ∀ m, m ≠ name →
        (DuplexRPCServer._handle_rpc_register reg conn name).2 m = reg m) := by
  constructor
  · rintro ⟨c, hc⟩
    unfold DuplexRPCServer._handle_rpc_register
    rw [hc]
  · intro h
    unfold DuplexRPCServer._handle_rpc_register
    rw [h]
    exact ⟨rfl, by simp, fun m hm => by simp [hm]⟩

/-- The registry after a first successful registration of nodeA by
connection 1. -/
def regAfterNodeA : String → Option Nat :=
  (DuplexRPCServer._handle_rpc_register (fun _ => none) 1 "nodeA").2

/-- Witness for C7: a second register of nodeA, from connection 2, is
rejected and connection 1 stays the mapping for nodeA. -/
theorem duplex_register_unique_witness :
    (∃ c, regAfterNodeA "nodeA" = some c) ∧
    DuplexRPCServer._handle_rpc_register regAfterNodeA 2 "nodeA"
      = (false, regAfterNodeA) :=
  ⟨⟨1, rfl⟩, (duplex_register_unique regAfterNodeA 2 "nodeA").1 ⟨1, rfl⟩⟩

/-- Claim C8: when the remote answers a register handshake with
False, the RESPONSE dispatch completes the future issued by register
with that False result — the boolean failure is observable to
whoever holds the returned future — and the client's internal
completion callback raises RPCRegisterError rather than swallowing
it. -/
theorem register_rejection_observable (s : RPCConnection) (name : String) :
    (RPCConnection.handle_rpc_response (s.register name).1 none
        (Value.scalar (Scalar.boolS false)) (s.register name).2).1.futures
        (s.register name).1
      = FutureState.resolved (Value.scalar (Scalar.boolS false)) ∧
    (RPCConnection.handle_rpc_response (s.register name).1 none
        (Value.scalar (Scalar.boolS false)) (s.register name).2).2 = none ∧
    RPCClient._register_callback name (Value.scalar (Scalar.boolS false))
      = Except.error (RPCError.registerError name) := by
  refine ⟨?_, ?_, rfl⟩ <;>
    simp [RPCConnection.register, RPCConnection.add_request_table,
      RPCConnection.handle_rpc_response, errTruthy]

/-- Claim C9, counterexample.  The REGISTER frame issued by
register(nodeA) carries as argument value the bare string nodeA (the
source packs the parenthesized expression (name), which is not a
one-element tuple), not a sequence containing the node name as sole
argument. -/
theorem register_payload_counterexample :
    (RPCConnection.register (initConn 0) "nodeA").2.written =
      [⟨RPC_REGISTER, 0, "register", Value.scalar (Scalar.strS "nodeA")⟩] ∧
    Value.scalar (Scalar.strS "nodeA") ≠ Value.tup [Scalar.strS "nodeA"] :=
  ⟨rfl, by decide⟩

/-- Claim C9, amended.  REQUEST and NOTICE frames carry payloads
decoding to the pair of the method name and the argument tuple;
register(name) issues a REGISTER frame whose method name is the
reserved method and whose payload's second component is the bare node
name itself, not a one-element sequence (the receiving handler
symmetrically passes that value on as the sole argument). -/
theorem outbound_payload_amended (s : RPCConnection) (m : String)
    (args : List Scalar) (name : String) :
    (s.call m args).2.written
      = s.written ++ [⟨RPC_REQUEST, s.generator, m, Value.tup args⟩] ∧
    (s.notice m args).written
      = s.written ++ [⟨RPC_NOTICE, s.generator, m, Value.tup args⟩] ∧
    (s.register name).2.written
      = s.written ++
          [⟨RPC_REGISTER, s.generator, "register", Value.scalar (Scalar.strS name)⟩] :=
  ⟨rfl, rfl, rfl⟩

/-- Claim C3, evaluated at the failing input.  One receive delivers
two complete frames; the first one's payload fails to decode.  The
receive invocation dispatches nothing at all: the second frame —
complete in the buffer, by the source's own completeness test — is
left buffered rather than dispatched during the same invocation (a
later invocation, here with empty data, does dispatch it). -/
theorem decode_failure_abandons_rest :
    RPCConnection.on_receive decodeStub [] (frameB1 ++ frameB2) = ([], frameB2) ∧
    HEAD_LEN < frameB2.length ∧
    parseU32 frameB2 0 ≤ frameB2.length - HEAD_LEN ∧
    (RPCConnection.on_receive decodeStub frameB2 []).1
      = [(2, 1, Value.scalar (Scalar.intS 0))] := by
  decide

/-- Claim C4, counterexample.  With the same 20 bytes — a frame whose
payload fails to decode followed by a decodable frame — delivery as
one chunk dispatches nothing, while delivery as two chunks dispatches
the second frame: reassembly is not invariant under chunking when a
decode failure occurs. -/
theorem chunking_counterexample :
    (feedChunks decodeStub [] [frameB1 ++ frameB2]).1 = [] ∧
    (feedChunks decodeStub [] [frameB1, frameB2]).1
      = [(2, 1, Value.scalar (Scalar.intS 0))] ∧
    (feedChunks decodeStub [] [frameB1, frameB2]).1
      ≠ (feedChunks decodeStub [] [List.flatten [frameB1, frameB2]]).1 := by
  decide

/-- Claim C4, amended: provided every payload decodes successfully
and every length field along the stream's frame chain reads
non-negative under the signed 32-bit read, delivering a byte
sequence in arbitrary chunks dispatches exactly the frames (and
leaves exactly the buffer) that delivering it as one single chunk
does.  (When a payload fails to decode, the remainder of that read
is abandoned; when a length field reads negative, the slices count
from the current end of the buffer — either way chunk boundaries
become observable.) -/
theorem chunking_invariant (d : List Nat → Option Value)
    (htot : ∀ bs, (d bs).isSome) (cs : List (List Nat))
    (hOk : headsOk cs.flatten = true) :
    feedChunks d [] cs = feedChunks d [] [cs.flatten] := by
  have h0 : runBuff d ([] : List Nat) = ([], []) := rfl
  have hOk1 : headsOk (([] : List Nat) ++ cs.flatten) = true := by
    rw [List.nil_append]
    exact hOk
  have hOk2 : headsOk (([] : List Nat) ++ [cs.flatten].flatten) = true := by
    rw [List.nil_append, List.flatten_cons, List.flatten_nil, List.append_nil]
    exact hOk
  rw [feedChunks_eq_run d htot cs [] h0 hOk1,
    feedChunks_eq_run d htot [cs.flatten] [] h0 hOk2]
  simp

/-- A codec that decodes every payload. -/
def decodeTotal : List Nat → Option Value := fun _ =>
  some (Value.scalar Scalar.nil)

/-- Witness for the amended C4 theorem at a concrete chunking. -/
theorem chunking_invariant_witness :
    (∀ bs, (decodeTotal bs).isSome) ∧
    headsOk (List.flatten [[0, 0, 0, 1], [2, 0, 0, 0, 1, 8]]) = true ∧
    feedChunks decodeTotal [] [[0, 0, 0, 1], [2, 0, 0, 0, 1, 8]]
      = feedChunks decodeTotal [] [List.flatten [[0, 0, 0, 1], [2, 0, 0, 0, 1, 8]]] :=
  ⟨fun _ => rfl, by decide,
    chunking_invariant decodeTotal (fun _ => rfl) _ (by decide)⟩

/-- Why the amended C4 must exclude negative length fields: the
header FF FF FF EC is read signed as -20, judged complete, and the
negative slice bounds then resolve against the current buffer
length, so delivering the same 30 bytes as one chunk or as 25 + 5
dispatches different payloads and keeps different buffers even
though the codec is total. -/
theorem signed_length_chunk_dependence :
    (∀ bs, (decodeInj bs).isSome) ∧
    parseI32 negFrame 0 = -20 ∧
    negChunkA ++ negChunkB = negFrame ∧
    feedChunks decodeInj [] [negFrame]
      ≠ feedChunks decodeInj [] [negChunkA, negChunkB] :=
  ⟨fun _ => rfl, by decide, by decide, by decide⟩

/-- Claim C5, evaluated at the failing input.  A complete frame with
a zero-length payload that exactly fills the buffer (9 bytes, so
buffered bytes minus the header size equals its length field 0)
survives the receive invocation undispatched, whatever the codec:
the drain loop only runs while strictly more than HEAD_LEN bytes are
buffered. -/
theorem complete_zero_length_frame_not_dispatched :
    (∀ dec : List Nat → Option Value,
      RPCConnection.on_receive dec [] frameZ = ([], frameZ)) ∧
    frameZ.length = HEAD_LEN ∧
    parseU32 frameZ 0 ≤ frameZ.length - HEAD_LEN :=
  ⟨fun _ => rfl, rfl, by decide⟩

/-- Claim C10: notice draws its id from the same generator state that
call would use and advances it by the same step, writes a NOTICE
frame under that id, and leaves the correlation table, the future
store and the scheduled timeouts untouched; a call issued right after
the notice draws the successor id. -/
theorem notice_advances_generator_only (s : RPCConnection) (m m2 : String)
    (args args2 : List Scalar) :
    (s.notice m args).generator = idGenNext s.generator ∧
    (s.notice m args).request_table = s.request_table ∧
    (s.notice m args).futures = s.futures ∧
    (s.notice m args).timeouts = s.timeouts ∧
    (s.notice m args).written
      = s.written ++ [⟨RPC_NOTICE, s.generator, m, Value.tup args⟩] ∧
    ((s.notice m args).call m2 args2).1 = idGenNext s.generator :=
  ⟨rfl, rfl, rfl, rfl, rfl, rfl⟩
